import Mathlib

/-!
Verification of the GraphQL façade layer of the repository
(`app/graphql/context.py`, `app/graphql/schema.py`, `app/graphql/types.py`):
a shallow embedding of the request context with its cache-TTL aggregation,
the enum crosswalk, the controller-invocation bridge, the per-node lazy
detail loader with memoization, and the ordered key filter of the `heroes`
field, together with theorems settling the specification claims.
-/

namespace OverfastGraphQL

/-! ## Python `int(str)` parsing

`GraphQLContext.merge_cache_ttl` calls `int(ttl_header)` and treats
`TypeError`/`ValueError` as a no-op.  We embed CPython's `int` applied to a
string: surrounding whitespace is stripped, an optional `+`/`-` sign is
followed by a non-empty run of ASCII digits in which single underscores may
appear between digits (`"1_0"` parses to `10`; leading/trailing/doubled
underscores fail).  Non-ASCII digit alphabets are not modelled. -/

/-- ASCII whitespace, as stripped by CPython `int` before parsing. -/
def isPyWhitespace (c : Char) : Bool :=
  c == ' ' || c == '\t' || c == '\n' || c == '\r' || c == '\x0b' || c == '\x0c'

/-- Strip leading and trailing whitespace from a character list. -/
def trimChars (l : List Char) : List Char :=
  ((l.dropWhile isPyWhitespace).reverse.dropWhile isPyWhitespace).reverse

/-- No two consecutive underscores occur in the character list. -/
def noDoubleUnderscore : List Char → Bool
  | '_' :: '_' :: _ => false
  | _ :: rest => noDoubleUnderscore rest
  | [] => true

/-- The character list matches `digit (('_')? digit)*`: non-empty, made of
ASCII digits and underscores, starting and ending with a digit, with no two
consecutive underscores. -/
def validDigitGroup (l : List Char) : Bool :=
  !l.isEmpty
    && l.all (fun c => c.isDigit || c == '_')
    && (l.head?.map Char.isDigit).getD false
    && (l.getLast?.map Char.isDigit).getD false
    && noDoubleUnderscore l

/-- Numeric value of a digit-and-underscore run (underscores skipped). -/
def digitsValue (l : List Char) : Nat :=
  (l.filter (fun c => c != '_')).foldl (fun n c => n * 10 + (c.toNat - '0'.toNat)) 0

/-- Magnitude part of the parse: `none` unless the characters form a valid
grouped digit run. -/
def parseDigits (l : List Char) : Option Nat :=
  if validDigitGroup l then some (digitsValue l) else none

/-- CPython `int(s)` for a string `s`, as an `Option`: `none` stands for the
`ValueError` that `merge_cache_ttl` swallows. -/
def pyParseInt (s : String) : Option Int :=
  match trimChars s.data with
  | [] => none
  | c :: rest =>
    if c == '-' then (parseDigits rest).map (fun n => -(n : Int))
    else if c == '+' then (parseDigits rest).map (fun n => (n : Int))
    else (parseDigits (c :: rest)).map (fun n => (n : Int))

/-! ## `GraphQLContext` (`app/graphql/context.py`)

The context holds the inbound request, the outbound response and
`cache_ttl`.  The request plays no role in the claims; of the outbound
response only the header cell named by `settings.cache_ttl_header` is ever
touched by this layer, so the response is modelled as that one cell. -/

/-- Outbound FastAPI `Response`, restricted to the single header
`settings.cache_ttl_header` that `merge_cache_ttl` writes. -/
structure ResponseModel where
  cacheTtlHeader : Option String
  deriving DecidableEq, Repr

/-- `GraphQLContext` from `app/graphql/context.py` (the `request` field is
omitted: it is never read or written by the embedded operations). -/
structure GraphQLContext where
  response : ResponseModel
  cache_ttl : Option Int
  deriving DecidableEq, Repr

/-- The context as built by `build_context`: `cache_ttl = None` and no
TTL header written yet on the outbound response. -/
def freshContext : GraphQLContext := ⟨⟨none⟩, none⟩

/-- `GraphQLContext.merge_cache_ttl`: absent header is a no-op, an
unparsable header is a no-op, otherwise the parsed value is stored and
written to the outbound header iff nothing is stored yet or it is strictly
smaller than the stored value. -/
def merge_cache_ttl (ctx : GraphQLContext) (ttl_header : Option String) : GraphQLContext :=
  match ttl_header with
  | none => ctx
  | some s =>
    match pyParseInt s with
    | none => ctx
    | some v =>
      match ctx.cache_ttl with
      | none => ⟨⟨some (toString v)⟩, some v⟩
      | some c =>
        if v < c then ⟨⟨some (toString v)⟩, some v⟩ else ctx

/-- A whole sequence of `merge_cache_ttl` calls on one context. -/
def applyMerges (ctx : GraphQLContext) (hdrs : List (Option String)) : GraphQLContext :=
  hdrs.foldl merge_cache_ttl ctx

/-- The successfully parsed values among a sequence of header values. -/
def parsedValues (hdrs : List (Option String)) : List Int :=
  hdrs.filterMap (fun h => h.bind pyParseInt)

/-- Minimum of a list of integers, `none` on the empty list. -/
def listMinOpt (l : List Int) : Option Int :=
  l.foldl (fun acc v => match acc with | none => some v | some c => some (min c v)) none

/-- `listMinOpt` with an explicit starting accumulator, for fold reasoning. -/
def minFold (a : Option Int) (l : List Int) : Option Int :=
  l.foldl (fun acc v => match acc with | none => some v | some c => some (min c v)) a

theorem listMinOpt_eq_minFold (l : List Int) : listMinOpt l = minFold none l := rfl

theorem minFold_mem (l : List Int) (a : Option Int) (v : Int)
    (h : minFold a l = some v) : a = some v ∨ v ∈ l := by
  induction l generalizing a with
  | nil => exact Or.inl h
  | cons x t ih =>
    rcases ih _ h with hstep | hmem
    · match a with
      | none =>
        simp only [Option.some.injEq] at hstep
        exact Or.inr (by simp [hstep])
      | some c =>
        simp only [Option.some.injEq] at hstep
        rcases min_choice c x with hm | hm
        · exact Or.inl (by rw [← hstep, hm])
        · exact Or.inr (by simp [← hstep, hm])
    · exact Or.inr (List.mem_cons_of_mem _ hmem)

theorem some_bind_parse (s : String) : (some s).bind pyParseInt = pyParseInt s := rfl

/-- How one `merge_cache_ttl` call moves the stored `cache_ttl`: no-op on an
unparsable header, min-merge on a parsed value. -/
theorem merge_cache_ttl_some_cache (ctx : GraphQLContext) (s : String) :
    (merge_cache_ttl ctx (some s)).cache_ttl =
      match pyParseInt s with
      | none => ctx.cache_ttl
      | some v =>
        match ctx.cache_ttl with
        | none => some v
        | some c => some (min c v) := by
  cases hp : pyParseInt s with
  | none => simp [merge_cache_ttl, hp]
  | some v =>
    cases hc : ctx.cache_ttl with
    | none => simp [merge_cache_ttl, hp, hc]
    | some c =>
      simp only [merge_cache_ttl, hp, hc]
      split
      · next hlt => simp [min_eq_right (le_of_lt hlt)]
      · next hge => simp [hc, min_eq_left (by omega : c ≤ v)]

/-- `merge_cache_ttl` preserves the agreement between the stored TTL and the
outbound header cell. -/
theorem merge_cache_ttl_inv (ctx : GraphQLContext) (h : Option String)
    (hinv : ctx.response.cacheTtlHeader = ctx.cache_ttl.map toString) :
    (merge_cache_ttl ctx h).response.cacheTtlHeader
      = (merge_cache_ttl ctx h).cache_ttl.map toString := by
  match h with
  | none => exact hinv
  | some s =>
    simp only [merge_cache_ttl]
    match pyParseInt s with
    | none => exact hinv
    | some v =>
      match ctx.cache_ttl with
      | none => rfl
      | some c =>
        simp only
        split
        · rfl
        · exact hinv

theorem parsedValues_cons (h : Option String) (t : List (Option String)) :
    parsedValues (h :: t) =
      match h.bind pyParseInt with
      | none => parsedValues t
      | some v => v :: parsedValues t := by
  simp only [parsedValues, List.filterMap_cons]
  cases h.bind pyParseInt <;> rfl

/-- Fold characterisation of a sequence of merges: starting from a context
whose header agrees with its stored TTL, the final stored TTL is the
min-fold of the parsed values over the starting TTL, and the header still
agrees. -/
theorem applyMerges_spec (hdrs : List (Option String)) (ctx : GraphQLContext)
    (hinv : ctx.response.cacheTtlHeader = ctx.cache_ttl.map toString) :
    (applyMerges ctx hdrs).cache_ttl = minFold ctx.cache_ttl (parsedValues hdrs) ∧
    (applyMerges ctx hdrs).response.cacheTtlHeader
      = (applyMerges ctx hdrs).cache_ttl.map toString := by
  induction hdrs generalizing ctx with
  | nil => exact ⟨rfl, hinv⟩
  | cons h t ih =>
    have hrec := ih (merge_cache_ttl ctx h) (merge_cache_ttl_inv ctx h hinv)
    refine ⟨?_, hrec.2⟩
    have hun : applyMerges ctx (h :: t) = applyMerges (merge_cache_ttl ctx h) t := rfl
    rw [hun, hrec.1, parsedValues_cons]
    cases h with
    | none => rfl
    | some s =>
      rw [merge_cache_ttl_some_cache, some_bind_parse]
      cases hp : pyParseInt s with
      | none => rfl
      | some v => rfl

/-- C1: after any sequence of `merge_cache_ttl` calls on one fresh context
— some header values absent, some unparsable — the stored `cache_ttl`
equals the minimum of all successfully parsed values and the outbound
cache-control header holds its decimal rendering; both are absent (the
header is never written) when no value parsed. -/
theorem ttl_min_aggregation (hdrs : List (Option String)) :
    (applyMerges freshContext hdrs).cache_ttl = listMinOpt (parsedValues hdrs) ∧
    (applyMerges freshContext hdrs).response.cacheTtlHeader
      = (listMinOpt (parsedValues hdrs)).map (fun v => toString v) := by
  have hspec := applyMerges_spec hdrs freshContext rfl
  refine ⟨?_, ?_⟩
  · rw [hspec.1, listMinOpt_eq_minFold]; rfl
  · rw [hspec.2, hspec.1, listMinOpt_eq_minFold]; rfl

/-- C5: the stored `cache_ttl` is monotonically non-increasing: with a value
`c` stored, a merge whose header parses to `v` stores `min c v`; when
`c ≤ v` the whole context (stored value and header) is unchanged, and when
`v < c` the parsed value replaces the stored one and is written to the
header. -/
theorem ttl_monotone (ctx : GraphQLContext) (s : String) (v c : Int)
    (hs : pyParseInt s = some v) (hc : ctx.cache_ttl = some c) :
    (merge_cache_ttl ctx (some s)).cache_ttl = some (min c v) ∧
    (c ≤ v → merge_cache_ttl ctx (some s) = ctx) ∧
    (v < c → merge_cache_ttl ctx (some s) = ⟨⟨some (toString v)⟩, some v⟩) := by
  have hm : merge_cache_ttl ctx (some s) =
      if v < c then ⟨⟨some (toString v)⟩, some v⟩ else ctx := by
    simp only [merge_cache_ttl, hs, hc]
  rcases lt_or_le v c with hlt | hle
  · rw [hm, if_pos hlt]
    exact ⟨by simp [min_eq_right (le_of_lt hlt)],
      fun hc2 => absurd hlt (by omega), fun _ => rfl⟩
  · rw [hm, if_neg (by omega)]
    exact ⟨by rw [hc, min_eq_left hle], fun _ => rfl, fun hlt => absurd hlt (by omega)⟩

theorem ttl_monotone_witness :
    (merge_cache_ttl ⟨⟨some "30"⟩, some 30⟩ (some "40")).cache_ttl = some (min 30 40) ∧
    ((30 : Int) ≤ 40 → merge_cache_ttl ⟨⟨some "30"⟩, some 30⟩ (some "40") = ⟨⟨some "30"⟩, some 30⟩) ∧
    ((40 : Int) < 30 → merge_cache_ttl ⟨⟨some "30"⟩, some 30⟩ (some "40") = ⟨⟨some "40"⟩, some 40⟩) :=
  ttl_monotone ⟨⟨some "30"⟩, some 30⟩ "40" 40 30 (by decide) rfl

/-- C10 counterexample: a header parsing to `-1` is stored, so `cache_ttl`
does hold a negative value, contradicting the claimed non-negativity. -/
theorem cache_ttl_negative_counterexample :
    (merge_cache_ttl freshContext (some "-1")).cache_ttl = some (-1) ∧ (-1 : Int) < 0 :=
  ⟨by decide, by decide⟩

/-- C10 amended: the stored `cache_ttl` is always either unset or an integer
that is one of the successfully parsed header values — with no sign
restriction: a header parsing to a negative integer is stored like any
other. -/
theorem cache_ttl_from_parsed (hdrs : List (Option String)) :
    (applyMerges freshContext hdrs).cache_ttl = none ∨
    ∃ v ∈ parsedValues hdrs, (applyMerges freshContext hdrs).cache_ttl = some v := by
  have hspec := applyMerges_spec hdrs freshContext rfl
  match hm : (applyMerges freshContext hdrs).cache_ttl with
  | none => exact Or.inl rfl
  | some v =>
    refine Or.inr ⟨v, ?_, rfl⟩
    have : minFold none (parsedValues hdrs) = some v := by
      rw [← hm, hspec.1]; rfl
    rcases minFold_mem _ _ _ this with hcontra | hmem
    · exact absurd hcontra (by simp)
    · exact hmem

/-! ## Enums and the crosswalk (`app/graphql/types.py`, `app/graphql/schema.py`)

The domain enums live in `app/enums.py`, `app/roles/enums.py` and
`app/heroes/enums.py`, which are not under `src/`; their member lists are
modelled from the spec (§3: 1:1 wire/domain correspondence) and the
members visible in the repository tests.  `types.py` declares the wire
enums over the same value codes. -/

/-- Modelled from the spec: the domain `Role` enum (`app/roles/enums.py` is
not under src/).  Members from the tests (`SUPPORT`, `DAMAGE`) plus the
standard third role. -/
inductive Role where
  | damage
  | support
  | tank
  deriving DecidableEq, Repr

/-- Value code of a domain role member. -/
def Role.val : Role → String
  | .damage => "damage"
  | .support => "support"
  | .tank => "tank"

def Role.members : List Role := [.damage, .support, .tank]

/-- Modelled from the spec: the domain `Locale` enum (`app/enums.py` is not
under src/).  `ENGLISH_US` appears in the tests; a second member keeps the
pair non-degenerate. -/
inductive Locale where
  | english_us
  | french_fr
  deriving DecidableEq, Repr

def Locale.val : Locale → String
  | .english_us => "en-us"
  | .french_fr => "fr-fr"

def Locale.members : List Locale := [.english_us, .french_fr]

/-- Modelled from the spec: the domain `HeroKey` enum (`app/heroes/enums.py`
is not under src/).  Members from the tests (`ANA`, `LUCIO`, `SOJOURN`). -/
inductive HeroKey where
  | ana
  | lucio
  | sojourn
  deriving DecidableEq, Repr

def HeroKey.val : HeroKey → String
  | .ana => "ana"
  | .lucio => "lucio"
  | .sojourn => "sojourn"

def HeroKey.members : List HeroKey := [.ana, .lucio, .sojourn]

/-- The runtime value stored in a wire enum member: per §3 and §4.2 the
underlying storage may hold either the domain member itself (the
`isinstance(x.value, Domain)` branch of the crosswalk) or the raw value
code. -/
inductive EnumVal (α : Type) where
  | domain (d : α)
  | code (s : String)
  deriving DecidableEq, Repr

/-- The value code carried by an `EnumVal`, given the domain enum's own
value function — §4.2: lookups compare "by value code, not exact enum
identity". -/
def EnumVal.codeOf (val : α → String) : EnumVal α → String
  | .domain d => val d
  | .code s => s

/-- A member of the wire `Role` enum (`RoleEnum` in `types.py`). -/
structure RoleEnumMem where
  value : EnumVal Role
  deriving DecidableEq, Repr

/-- A member of the wire `Locale` enum (`LocaleEnum` in `types.py`). -/
structure LocaleEnumMem where
  value : EnumVal Locale
  deriving DecidableEq, Repr

/-- A member of the wire `HeroKey` enum (`HeroKeyEnum` in `types.py`). -/
structure HeroKeyEnumMem where
  value : EnumVal HeroKey
  deriving DecidableEq, Repr

/-- Declared members of `RoleEnum = strawberry.enum(Role)`: one per domain
member, carrying the raw value code. -/
def roleEnumMembers : List RoleEnumMem :=
  [⟨.code "damage"⟩, ⟨.code "support"⟩, ⟨.code "tank"⟩]

/-- Declared members of `LocaleEnum = strawberry.enum(Locale)`. -/
def localeEnumMembers : List LocaleEnumMem :=
  [⟨.code "en-us"⟩, ⟨.code "fr-fr"⟩]

/-- Declared members of `HeroKeyEnum = strawberry.enum(HeroKey)`. -/
def heroKeyEnumMembers : List HeroKeyEnumMem :=
  [⟨.code "ana"⟩, ⟨.code "lucio"⟩, ⟨.code "sojourn"⟩]

/-- Python `Role(x)`: the domain member whose value code matches, `none`
standing for the `ValueError`. -/
def Role.ofCode (s : String) : Option Role :=
  Role.members.find? (fun d => d.val == s)

/-- Python `Locale(x)`. -/
def Locale.ofCode (s : String) : Option Locale :=
  Locale.members.find? (fun d => d.val == s)

/-- Python `HeroKey(x)`. -/
def HeroKey.ofCode (s : String) : Option HeroKey :=
  HeroKey.members.find? (fun d => d.val == s)

/-- Python `RoleEnum(x)`: wire member lookup by value code (§4.2). -/
def roleEnumOfValue (x : EnumVal Role) : Option RoleEnumMem :=
  roleEnumMembers.find? (fun m => m.value.codeOf Role.val == x.codeOf Role.val)

/-- Python `LocaleEnum(x)`. -/
def localeEnumOfValue (x : EnumVal Locale) : Option LocaleEnumMem :=
  localeEnumMembers.find? (fun m => m.value.codeOf Locale.val == x.codeOf Locale.val)

/-- Python `HeroKeyEnum(x)`. -/
def heroKeyEnumOfValue (x : EnumVal HeroKey) : Option HeroKeyEnumMem :=
  heroKeyEnumMembers.find? (fun m => m.value.codeOf HeroKey.val == x.codeOf HeroKey.val)

/-- A Python list comprehension over a fallible element operation:
sequential, failing at the first raising element. -/
def exceptMapList (f : α → Except ε β) : List α → Except ε (List β)
  | [] => .ok []
  | a :: t =>
    match f a with
    | .error e => .error e
    | .ok b =>
      match exceptMapList f t with
      | .error e => .error e
      | .ok bs => .ok (b :: bs)

/-- Errors of the crosswalk and of the embedded resolvers.  `ValueError`
raised by a failed enum lookup is the spec's `UnknownEnumValue`. -/
inductive ConvErr where
  | unknownEnumValue
  deriving DecidableEq, Repr

/-- `_convert_role` from `schema.py`: `None` passes through; a value that
already holds the domain member is returned as-is; otherwise a `Role(...)`
lookup by value. -/
def _convert_role : Option RoleEnumMem → Except ConvErr (Option Role)
  | none => .ok none
  | some m =>
    match m.value with
    | .domain d => .ok (some d)
    | .code s =>
      match Role.ofCode s with
      | some d => .ok (some d)
      | none => .error .unknownEnumValue

/-- `_convert_locale` from `schema.py`. -/
def _convert_locale (locale : LocaleEnumMem) : Except ConvErr Locale :=
  match locale.value with
  | .domain d => .ok d
  | .code s =>
    match Locale.ofCode s with
    | some d => .ok d
    | none => .error .unknownEnumValue

/-- `_enum_to_hero_key` from `schema.py`. -/
def _enum_to_hero_key (enum_member : HeroKeyEnumMem) : Except ConvErr HeroKey :=
  match enum_member.value with
  | .domain d => .ok d
  | .code s =>
    match HeroKey.ofCode s with
    | some d => .ok d
    | none => .error .unknownEnumValue

/-- `_convert_keys` from `schema.py`. -/
def _convert_keys (keys : List HeroKeyEnumMem) : Except ConvErr (List HeroKey) :=
  exceptMapList _enum_to_hero_key keys

/-- `_hero_key_to_enum` from `schema.py`: try `HeroKeyEnum(hero_key)` and on
`ValueError` fall back to `HeroKeyEnum(hero_key.value)`. -/
def _hero_key_to_enum (hero_key : HeroKey) : Except ConvErr HeroKeyEnumMem :=
  match heroKeyEnumOfValue (.domain hero_key) with
  | some m => .ok m
  | none =>
    match heroKeyEnumOfValue (.code hero_key.val) with
    | some m => .ok m
    | none => .error .unknownEnumValue

/-- `_role_to_enum` from `schema.py`. -/
def _role_to_enum (role : Role) : Except ConvErr RoleEnumMem :=
  match roleEnumOfValue (.domain role) with
  | some m => .ok m
  | none =>
    match roleEnumOfValue (.code role.val) with
    | some m => .ok m
    | none => .error .unknownEnumValue

/-- Modelled from the spec: §4.2 requires a `toWire` direction for every
enum pair, but the Locale pair's `toWire` is not under src/ (`schema.py`
only has the `toDomain` direction `_convert_locale`).  Mirrors
`_role_to_enum`. -/
def _locale_to_enum (locale : Locale) : Except ConvErr LocaleEnumMem :=
  match localeEnumOfValue (.domain locale) with
  | some m => .ok m
  | none =>
    match localeEnumOfValue (.code locale.val) with
    | some m => .ok m
    | none => .error .unknownEnumValue

/-- C6: each enum pair (Role, Locale, HeroKey) round-trips losslessly over
its declared members: `toWire (toDomain x) = x` for every declared wire
member `x` and `toDomain (toWire y) = y` for every domain member `y`
(`toDomain` being `_convert_role` / `_convert_locale` / `_enum_to_hero_key`
and `toWire` being `_role_to_enum` / `_locale_to_enum` /
`_hero_key_to_enum`). -/
theorem enum_round_trip :
    (∀ m ∈ roleEnumMembers,
      ∃ d, _convert_role (some m) = .ok (some d) ∧ _role_to_enum d = .ok m) ∧
    (∀ d : Role, ∃ m, _role_to_enum d = .ok m ∧ _convert_role (some m) = .ok (some d)) ∧
    (∀ m ∈ localeEnumMembers,
      ∃ d, _convert_locale m = .ok d ∧ _locale_to_enum d = .ok m) ∧
    (∀ d : Locale, ∃ m, _locale_to_enum d = .ok m ∧ _convert_locale m = .ok d) ∧
    (∀ m ∈ heroKeyEnumMembers,
      ∃ d, _enum_to_hero_key m = .ok d ∧ _hero_key_to_enum d = .ok m) ∧
    (∀ d : HeroKey, ∃ m, _hero_key_to_enum d = .ok m ∧ _enum_to_hero_key m = .ok d) := by
  refine ⟨?_, ?_, ?_, ?_, ?_, ?_⟩
  · intro m hm
    fin_cases hm <;> exact ⟨_, rfl, rfl⟩
  · intro d
    cases d <;> exact ⟨_, rfl, rfl⟩
  · intro m hm
    fin_cases hm <;> exact ⟨_, rfl, rfl⟩
  · intro d
    cases d <;> exact ⟨_, rfl, rfl⟩
  · intro m hm
    fin_cases hm <;> exact ⟨_, rfl, rfl⟩
  · intro d
    cases d <;> exact ⟨_, rfl, rfl⟩

theorem enum_round_trip_witness :
    ∃ d, _convert_role (some ⟨.code "support"⟩) = .ok (some d) ∧
      _role_to_enum d = .ok ⟨.code "support"⟩ :=
  enum_round_trip.1 ⟨.code "support"⟩ (by decide)

/-- C7: behaviour of the crosswalk on every possible input, for each
`toDomain` conversion: a value already holding the domain member is
returned unchanged; a value code that is a member of the target enum
converts successfully to that member; a value code that is not a member of
the target enum fails with `UnknownEnumValue`; and membership of a code is
exactly the existence of a domain member with that value code.  The
`toWire` direction always succeeds with the member of matching code, every
domain code being declared on the wire. -/
theorem crosswalk_conversion_cases :
    (∀ d : Role, _convert_role (some ⟨.domain d⟩) = .ok (some d)) ∧
    (∀ s d, Role.ofCode s = some d → _convert_role (some ⟨.code s⟩) = .ok (some d)) ∧
    (∀ s, Role.ofCode s = none → _convert_role (some ⟨.code s⟩) = .error .unknownEnumValue) ∧
    (∀ s, (Role.ofCode s).isSome = true ↔ ∃ d : Role, d.val = s) ∧
    (∀ d : Locale, _convert_locale ⟨.domain d⟩ = .ok d) ∧
    (∀ s d, Locale.ofCode s = some d → _convert_locale ⟨.code s⟩ = .ok d) ∧
    (∀ s, Locale.ofCode s = none → _convert_locale ⟨.code s⟩ = .error .unknownEnumValue) ∧
    (∀ s, (Locale.ofCode s).isSome = true ↔ ∃ d : Locale, d.val = s) ∧
    (∀ d : HeroKey, _enum_to_hero_key ⟨.domain d⟩ = .ok d) ∧
    (∀ s d, HeroKey.ofCode s = some d → _enum_to_hero_key ⟨.code s⟩ = .ok d) ∧
    (∀ s, HeroKey.ofCode s = none → _enum_to_hero_key ⟨.code s⟩ = .error .unknownEnumValue) ∧
    (∀ s, (HeroKey.ofCode s).isSome = true ↔ ∃ d : HeroKey, d.val = s) ∧
    (∀ r : Role, ∃ m, _role_to_enum r = .ok m ∧ m.value.codeOf Role.val = r.val) ∧
    (∀ k : HeroKey, ∃ m, _hero_key_to_enum k = .ok m ∧ m.value.codeOf HeroKey.val = k.val) := by
  refine ⟨fun d => rfl, ?_, ?_, ?_, fun d => rfl, ?_, ?_, ?_, fun d => rfl, ?_, ?_, ?_, ?_, ?_⟩
  · intro s d h
    simp [_convert_role, h]
  · intro s h
    simp [_convert_role, h]
  · intro s
    constructor
    · intro h
      rcases Option.isSome_iff_exists.1 h with ⟨d, hd⟩
      have := List.find?_some hd
      exact ⟨d, by simpa using this⟩
    · rintro ⟨d, rfl⟩
      cases d <;> rfl
  · intro s d h
    simp [_convert_locale, h]
  · intro s h
    simp [_convert_locale, h]
  · intro s
    constructor
    · intro h
      rcases Option.isSome_iff_exists.1 h with ⟨d, hd⟩
      have := List.find?_some hd
      exact ⟨d, by simpa using this⟩
    · rintro ⟨d, rfl⟩
      cases d <;> rfl
  · intro s d h
    simp [_enum_to_hero_key, h]
  · intro s h
    simp [_enum_to_hero_key, h]
  · intro s
    constructor
    · intro h
      rcases Option.isSome_iff_exists.1 h with ⟨d, hd⟩
      have := List.find?_some hd
      exact ⟨d, by simpa using this⟩
    · rintro ⟨d, rfl⟩
      cases d <;> rfl
  · intro r
    cases r <;> exact ⟨_, rfl, rfl⟩
  · intro k
    cases k <;> exact ⟨_, rfl, rfl⟩

theorem crosswalk_conversion_cases_witness :
    _convert_role (some ⟨.code "bogus"⟩) = .error .unknownEnumValue ∧
    _enum_to_hero_key ⟨.code "ana"⟩ = .ok .ana :=
  ⟨crosswalk_conversion_cases.2.2.1 "bogus" rfl,
    crosswalk_conversion_cases.2.2.2.2.2.2.2.2.2.1 "ana" .ana rfl⟩

/-! ## Short entities and the ordered key filter (`schema.py`) -/

/-- `HeroShort` (`app/heroes/models.py`, interface per §3): key, display
name, portrait reference, role.  Immutable once constructed. -/
structure HeroShort where
  key : HeroKey
  name : String
  portrait : String
  role : Role
  deriving DecidableEq, Repr

/-- Python `dict.get(k)` on an insertion-ordered association list. -/
def pyDictGet [DecidableEq κ] (d : List (κ × β)) (k : κ) : Option β :=
  match d with
  | [] => none
  | (k1, v1) :: t => if k1 = k then some v1 else pyDictGet t k

/-- Python `dict[k] = v` on an insertion-ordered association list: update in
place if the key is present, append otherwise. -/
def pyDictSet [DecidableEq κ] (d : List (κ × β)) (k : κ) (v : β) : List (κ × β) :=
  match d with
  | [] => [(k, v)]
  | (k1, v1) :: t => if k1 = k then (k1, v) :: t else (k1, v1) :: pyDictSet t k v

theorem pyDictGet_set [DecidableEq κ] (d : List (κ × β)) (k k2 : κ) (v : β) :
    pyDictGet (pyDictSet d k v) k2 = if k2 = k then some v else pyDictGet d k2 := by
  induction d with
  | nil =>
    rcases eq_or_ne k2 k with rfl | h
    · simp [pyDictGet, pyDictSet]
    · simp [pyDictGet, pyDictSet, h, Ne.symm h]
  | cons p t ih =>
    obtain ⟨k1, v1⟩ := p
    rcases eq_or_ne k1 k with rfl | h1
    · rcases eq_or_ne k2 k1 with rfl | h2
      · simp [pyDictGet, pyDictSet]
      · simp [pyDictGet, pyDictSet, h2, Ne.symm h2]
    · rcases eq_or_ne k2 k with rfl | h2
      · simp [pyDictGet, pyDictSet, h1, ih, Ne.symm h1]
      · rcases eq_or_ne k1 k2 with rfl | h3
        · simp [pyDictGet, pyDictSet, h1]
        · simp [pyDictGet, pyDictSet, h1, h3, ih, h2]

/-- `by_key = {hero.key: hero for hero in hero_shorts}` from
`_filter_by_keys`: the dict comprehension, built left to right. -/
def byKeyDict (hero_shorts : List HeroShort) : List (HeroKey × HeroShort) :=
  hero_shorts.foldl (fun d hero => pyDictSet d hero.key hero) []

/-- The last entity with the given key, in downstream order — the
specification-side description of what a last-write-wins lookup keeps. -/
def lastWithKey : List HeroShort → HeroKey → Option HeroShort
  | [], _ => none
  | h :: t, k =>
    match lastWithKey t k with
    | some r => some r
    | none => if h.key = k then some h else none

theorem byKeyDict_get_aux (hs : List HeroShort) (d : List (HeroKey × HeroShort)) (k : HeroKey) :
    pyDictGet (hs.foldl (fun d hero => pyDictSet d hero.key hero) d) k =
      match lastWithKey hs k with
      | some r => some r
      | none => pyDictGet d k := by
  induction hs generalizing d with
  | nil => rfl
  | cons h t ih =>
    rw [List.foldl_cons, ih]
    cases hl : lastWithKey t k with
    | some r => simp [lastWithKey, hl]
    | none =>
      simp only [lastWithKey, hl, pyDictGet_set]
      rcases eq_or_ne h.key k with hk | hk
      · simp [hk]
      · simp [hk, Ne.symm hk]

/-- The comprehension's lookup keeps the last downstream occurrence of a
key. -/
theorem byKeyDict_get (hs : List HeroShort) (k : HeroKey) :
    pyDictGet (byKeyDict hs) k = lastWithKey hs k := by
  rw [byKeyDict, byKeyDict_get_aux]
  cases lastWithKey hs k <;> rfl

/-- `_filter_by_keys` from `schema.py`: empty `keys` passes the downstream
list through; otherwise iterate the caller's keys over the comprehension's
lookup, appending each hit and skipping misses. -/
def _filter_by_keys (hero_shorts : List HeroShort) (keys : List HeroKey) : List HeroShort :=
  if keys.isEmpty then hero_shorts
  else
    let by_key := byKeyDict hero_shorts
    keys.foldl
      (fun filtered key =>
        match pyDictGet by_key key with
        | some hero => filtered ++ [hero]
        | none => filtered)
      []

theorem filter_fold_eq_filterMap (by_key : List (HeroKey × HeroShort))
    (keys : List HeroKey) (acc : List HeroShort) :
    keys.foldl
      (fun filtered key =>
        match pyDictGet by_key key with
        | some hero => filtered ++ [hero]
        | none => filtered)
      acc
    = acc ++ keys.filterMap (fun key => pyDictGet by_key key) := by
  induction keys generalizing acc with
  | nil => simp
  | cons k t ih =>
    simp only [List.foldl_cons, List.filterMap_cons]
    cases h : pyDictGet by_key k with
    | none => rw [ih]
    | some hero => rw [ih]; simp

/-- With a non-empty `keys` list, the filter is exactly: caller's keys in
order, each looked up in the comprehension's dict, misses dropped. -/
theorem filter_by_keys_eq (hero_shorts : List HeroShort) (keys : List HeroKey)
    (hne : keys ≠ []) :
    _filter_by_keys hero_shorts keys
      = keys.filterMap (fun key => pyDictGet (byKeyDict hero_shorts) key) := by
  have hemp : keys.isEmpty = false := by
    cases keys with
    | nil => exact absurd rfl hne
    | cons k t => rfl
  rw [_filter_by_keys, hemp]
  simpa using filter_fold_eq_filterMap (byKeyDict hero_shorts) keys []

/-- C3: with non-empty caller keys the filter emits, in the caller's order,
one node per key found (repetitions kept, misses silently skipped); in
particular downstream order `[A, B, C]` with caller keys `[C, A, C]` yields
`[C, A, C]`. -/
theorem filter_by_keys_ordered :
    (∀ hero_shorts keys, keys ≠ [] →
      _filter_by_keys hero_shorts keys
        = keys.filterMap (fun key => pyDictGet (byKeyDict hero_shorts) key)) ∧
    (∀ a b c : HeroShort, a.key ≠ b.key → a.key ≠ c.key → b.key ≠ c.key →
      _filter_by_keys [a, b, c] [c.key, a.key, c.key] = [c, a, c]) := by
  refine ⟨filter_by_keys_eq, ?_⟩
  intro a b c hab hac hbc
  rw [filter_by_keys_eq _ _ (by simp)]
  have hga : pyDictGet (byKeyDict [a, b, c]) a.key = some a := by
    rw [byKeyDict_get]
    simp [lastWithKey, Ne.symm hab, Ne.symm hac]
  have hgc : pyDictGet (byKeyDict [a, b, c]) c.key = some c := by
    rw [byKeyDict_get]
    simp [lastWithKey]
  simp [hga, hgc]

theorem filter_by_keys_ordered_witness :
    _filter_by_keys
        [⟨.ana, "Ana", "pa", .support⟩, ⟨.lucio, "Lucio", "pb", .support⟩,
          ⟨.sojourn, "Sojourn", "pc", .damage⟩]
        [HeroShort.key ⟨.sojourn, "Sojourn", "pc", .damage⟩,
          HeroShort.key ⟨.ana, "Ana", "pa", .support⟩,
          HeroShort.key ⟨.sojourn, "Sojourn", "pc", .damage⟩]
      = [⟨.sojourn, "Sojourn", "pc", .damage⟩, ⟨.ana, "Ana", "pa", .support⟩,
          ⟨.sojourn, "Sojourn", "pc", .damage⟩] :=
  filter_by_keys_ordered.2
    ⟨.ana, "Ana", "pa", .support⟩ ⟨.lucio, "Lucio", "pb", .support⟩
    ⟨.sojourn, "Sojourn", "pc", .damage⟩ (by decide) (by decide) (by decide)

/-- C9: with non-empty caller keys, each emitted entity is the last
downstream occurrence of its key — the comprehension's lookup is
last-write-wins on duplicate downstream keys. -/
theorem filter_by_keys_last_write_wins (hero_shorts : List HeroShort)
    (keys : List HeroKey) (hne : keys ≠ []) :
    _filter_by_keys hero_shorts keys = keys.filterMap (lastWithKey hero_shorts) := by
  rw [filter_by_keys_eq hero_shorts keys hne]
  exact List.filterMap_congr (fun k _ => byKeyDict_get hero_shorts k)

theorem filter_by_keys_last_write_wins_witness :
    _filter_by_keys [⟨.ana, "AnaFirst", "p1", .support⟩, ⟨.ana, "AnaLast", "p2", .support⟩]
        [.ana]
      = [⟨.ana, "AnaLast", "p2", .support⟩] :=
  (filter_by_keys_last_write_wins
      [⟨.ana, "AnaFirst", "p1", .support⟩, ⟨.ana, "AnaLast", "p2", .support⟩]
      [.ana] (by decide)).trans (by rfl)

/-! ## Controller bridge, detail loader, `heroes` resolver (`schema.py`) -/

/-- An error raised by a downstream controller's `process_request`; the
payload code keeps distinct errors distinguishable, so "propagates
unmodified" is meaningful. -/
inductive DownstreamErr where
  | err (code : Nat)
  deriving DecidableEq, Repr

/-- Pydantic validation failure (`model_validate` raising). -/
inductive ValidationError where
  | invalid
  deriving DecidableEq, Repr

/-- One downstream controller invocation as the bridge observes it: the
outcome of `process_request` and the TTL header the controller set on the
scratch `Response` handed to it. -/
structure ControllerCall (α : Type) where
  result : Except DownstreamErr α
  ttlHeader : Option String

/-- `_run_controller` from `schema.py`: run the controller against a scratch
response; on success read the scratch TTL header and merge it into the
context, returning the payload; on failure the error propagates and the
merge line is never reached, so the context is untouched. -/
def _run_controller (ctx : GraphQLContext) (call : ControllerCall α) :
    Except DownstreamErr α × GraphQLContext :=
  match call.result with
  | .error e => (.error e, ctx)
  | .ok payload => (.ok payload, merge_cache_ttl ctx call.ttlHeader)

/-- The `Hero` detail model (`app/heroes/models.py`, interface per §3):
opaque immutable record standing for the full validated detail payload. -/
structure Hero where
  name : String
  description : String
  deriving DecidableEq, Repr

/-- Raw payload returned by the detail controller, before
`Hero.model_validate`. -/
inductive DetailPayload where
  | valid (hero : Hero)
  | malformed
  deriving DecidableEq, Repr

/-- `Hero.model_validate`: parse the detail payload or raise
`ValidationError`. -/
def Hero.model_validate : DetailPayload → Except ValidationError Hero
  | .valid hero => .ok hero
  | .malformed => .error .invalid

/-- Raw item of the list controller's payload collection, before
`HeroShort.model_validate`. -/
inductive ShortPayload where
  | valid (hero : HeroShort)
  | malformed
  deriving DecidableEq, Repr

/-- `HeroShort.model_validate`. -/
def HeroShort.model_validate : ShortPayload → Except ValidationError HeroShort
  | .valid hero => .ok hero
  | .malformed => .error .invalid

/-- `_parse_models` from `schema.py`. -/
def _parse_models (data : List ShortPayload) : Except ValidationError (List HeroShort) :=
  exceptMapList HeroShort.model_validate data

/-- Any error surfacing from the embedded resolvers: enum crosswalk
failure, downstream controller failure, or payload validation failure. -/
inductive GqlErr where
  | conv (e : ConvErr)
  | downstream (e : DownstreamErr)
  | validation (e : ValidationError)
  deriving DecidableEq, Repr

/-- `HeroNode` from `schema.py`: the graph-exposed wrapper with its private
per-instance `_details_cache` mapping the locale's value to the memoized
`Hero`. -/
structure HeroNode where
  key : HeroKeyEnumMem
  name : String
  portrait : String
  role : RoleEnumMem
  _details_cache : List (EnumVal Locale × Hero) := []
  deriving DecidableEq, Repr

/-- `_make_hero_node` from `schema.py`: wrap a `HeroShort`, converting its
key and role to the wire enums, with an empty detail cache. -/
def _make_hero_node (hero_short : HeroShort) : Except ConvErr HeroNode :=
  match _hero_key_to_enum hero_short.key with
  | .error e => .error e
  | .ok key_enum =>
    match _role_to_enum hero_short.role with
    | .error e => .error e
    | .ok role_enum =>
      .ok ⟨key_enum, hero_short.name, hero_short.portrait, role_enum, []⟩

/-- The node `_make_hero_node` actually builds: every domain code is
declared on the wire, so the conversions never fail. -/
def heroNodeOfShort (hero_short : HeroShort) : HeroNode :=
  ⟨⟨.code hero_short.key.val⟩, hero_short.name, hero_short.portrait,
    ⟨.code hero_short.role.val⟩, []⟩

theorem make_hero_node_ok (hero_short : HeroShort) :
    _make_hero_node hero_short = .ok (heroNodeOfShort hero_short) := by
  obtain ⟨k, n, p, r⟩ := hero_short
  cases k <;> cases r <;> rfl

theorem mapM_make_hero_node (hs : List HeroShort) :
    exceptMapList _make_hero_node hs = .ok (hs.map heroNodeOfShort) := by
  induction hs with
  | nil => rfl
  | cons h t ih => simp [exceptMapList, make_hero_node_ok, ih]

/-- Result of one `_load_details` invocation: the field result (or raised
error), the node afterwards (its cache possibly extended), the context
afterwards, and how many downstream detail-controller calls were made. -/
structure LoadResult where
  result : Except GqlErr Hero
  node : HeroNode
  ctx : GraphQLContext
  calls : Nat
  deriving Repr

/-- `HeroNode._load_details` from `schema.py`: return the memoized entity
for `locale.value` when present; otherwise convert key and locale, run the
detail controller through the bridge, validate the payload, memoize and
return it.  `backend` gives the detail controller's behaviour per domain
key and locale. -/
def _load_details (node : HeroNode) (ctx : GraphQLContext)
    (backend : HeroKey → Locale → ControllerCall DetailPayload)
    (locale : LocaleEnumMem) : LoadResult :=
  match pyDictGet node._details_cache locale.value with
  | some cached => ⟨.ok cached, node, ctx, 0⟩
  | none =>
    match _enum_to_hero_key node.key with
    | .error e => ⟨.error (.conv e), node, ctx, 0⟩
    | .ok hero_key =>
      match _convert_locale locale with
      | .error e => ⟨.error (.conv e), node, ctx, 0⟩
      | .ok dloc =>
        match _run_controller ctx (backend hero_key dloc) with
        | (.error e, ctx2) => ⟨.error (.downstream e), node, ctx2, 1⟩
        | (.ok payload, ctx2) =>
          match Hero.model_validate payload with
          | .error e => ⟨.error (.validation e), node, ctx2, 1⟩
          | .ok hero =>
            ⟨.ok hero,
              { node with _details_cache := pyDictSet node._details_cache locale.value hero },
              ctx2, 1⟩

/-- `Query.heroes` from `schema.py`: convert role and locale, run the list
controller through the bridge, validate the payload collection, convert
the caller's keys when a non-empty list was supplied, apply the key
filter, and wrap each remaining entity as a node.  `listBackend` gives the
list controller's behaviour per converted role and locale. -/
def heroes (ctx : GraphQLContext)
    (listBackend : Option Role → Locale → ControllerCall (List ShortPayload))
    (role : Option RoleEnumMem) (locale : LocaleEnumMem)
    (keys : Option (List HeroKeyEnumMem)) :
    Except GqlErr (List HeroNode) × GraphQLContext :=
  match _convert_role role with
  | .error e => (.error (.conv e), ctx)
  | .ok drole =>
    match _convert_locale locale with
    | .error e => (.error (.conv e), ctx)
    | .ok dloc =>
      match _run_controller ctx (listBackend drole dloc) with
      | (.error e, ctx2) => (.error (.downstream e), ctx2)
      | (.ok payload, ctx2) =>
        match _parse_models payload with
        | .error e => (.error (.validation e), ctx2)
        | .ok hero_shorts =>
          match (match keys with
                 | none => Except.ok []
                 | some [] => Except.ok []
                 | some ks => _convert_keys ks) with
          | .error e => (.error (.conv e), ctx2)
          | .ok hero_keys =>
            match exceptMapList _make_hero_node (_filter_by_keys hero_shorts hero_keys) with
            | .error e => (.error (.conv e), ctx2)
            | .ok nodes => (.ok nodes, ctx2)

/-- C8: when the downstream controller's `process_request` raises, the
bridge returns exactly that error (no translation) and the context — its
stored `cache_ttl` and the outbound header — is unchanged: no TTL from the
failed call is merged. -/
theorem controller_error_propagation {α : Type} (ctx : GraphQLContext)
    (call : ControllerCall α) (e : DownstreamErr) (h : call.result = .error e) :
    _run_controller ctx call = (.error e, ctx) := by
  simp [_run_controller, h]

theorem controller_error_propagation_witness :
    _run_controller freshContext
        (⟨.error (.err 7), some "30"⟩ : ControllerCall (List ShortPayload))
      = (.error (.err 7), freshContext) :=
  controller_error_propagation freshContext ⟨.error (.err 7), some "30"⟩ (.err 7) rfl

/-- C2: if a detail entity is memoized for the locale on this node
instance, `_load_details` returns it with no downstream call and an
untouched context; consequently, starting from a node with no entry for
the locale, a successful load makes exactly one downstream call and a
second load with the same locale returns the same entity from the cache
with zero further calls and no context change. -/
theorem details_memoized (node : HeroNode) (ctx : GraphQLContext)
    (backend : HeroKey → Locale → ControllerCall DetailPayload) (locale : LocaleEnumMem) :
    (∀ h, pyDictGet node._details_cache locale.value = some h →
      _load_details node ctx backend locale = ⟨.ok h, node, ctx, 0⟩) ∧
    (∀ r h, _load_details node ctx backend locale = r →
      pyDictGet node._details_cache locale.value = none →
      r.result = .ok h →
      r.calls = 1 ∧ _load_details r.node r.ctx backend locale = ⟨.ok h, r.node, r.ctx, 0⟩) := by
  constructor
  · intro h hget
    simp [_load_details, hget]
  · intro r h hr hget hok
    subst hr
    cases hk : _enum_to_hero_key node.key with
    | error e => simp [_load_details, hget, hk] at hok
    | ok hero_key =>
      cases hl : _convert_locale locale with
      | error e => simp [_load_details, hget, hk, hl] at hok
      | ok dloc =>
        cases hc : (backend hero_key dloc).result with
        | error e => simp [_load_details, hget, hk, hl, _run_controller, hc] at hok
        | ok payload =>
          cases hv : Hero.model_validate payload with
          | error e => simp [_load_details, hget, hk, hl, _run_controller, hc, hv] at hok
          | ok hero =>
            have hres : _load_details node ctx backend locale =
                ⟨.ok hero,
                  { node with
                    _details_cache := pyDictSet node._details_cache locale.value hero },
                  merge_cache_ttl ctx (backend hero_key dloc).ttlHeader, 1⟩ := by
              simp [_load_details, hget, hk, hl, _run_controller, hc, hv]
            rw [hres] at hok ⊢
            simp only [Except.ok.injEq] at hok
            subst hok
            refine ⟨rfl, ?_⟩
            simp [_load_details, pyDictGet_set]

def wHero : Hero := ⟨"Ana", "Support sniper"⟩

def wDetailBackend : HeroKey → Locale → ControllerCall DetailPayload :=
  fun _ _ => ⟨.ok (.valid wHero), some "60"⟩

def wNode : HeroNode := ⟨⟨.code "ana"⟩, "Ana", "pa", ⟨.code "support"⟩, []⟩

theorem details_memoized_witness :
    (_load_details wNode freshContext wDetailBackend ⟨.code "en-us"⟩).calls = 1 ∧
    _load_details (_load_details wNode freshContext wDetailBackend ⟨.code "en-us"⟩).node
        (_load_details wNode freshContext wDetailBackend ⟨.code "en-us"⟩).ctx
        wDetailBackend ⟨.code "en-us"⟩
      = ⟨.ok wHero,
          (_load_details wNode freshContext wDetailBackend ⟨.code "en-us"⟩).node,
          (_load_details wNode freshContext wDetailBackend ⟨.code "en-us"⟩).ctx, 0⟩ :=
  (details_memoized wNode freshContext wDetailBackend ⟨.code "en-us"⟩).2
    (_load_details wNode freshContext wDetailBackend ⟨.code "en-us"⟩) wHero rfl rfl rfl

/-- C4: when the caller's `keys` argument is absent or the empty list, the
`heroes` field returns every downstream short entity, in downstream order,
each wrapped as a node (and the empty key filter is the identity on the
downstream list). -/
theorem heroes_no_keys_passthrough (ctx : GraphQLContext)
    (listBackend : Option Role → Locale → ControllerCall (List ShortPayload))
    (role : Option RoleEnumMem) (locale : LocaleEnumMem)
    (keys : Option (List HeroKeyEnumMem))
    (drole : Option Role) (dloc : Locale)
    (payload : List ShortPayload) (hero_shorts : List HeroShort)
    (hrole : _convert_role role = .ok drole)
    (hloc : _convert_locale locale = .ok dloc)
    (hcall : (listBackend drole dloc).result = .ok payload)
    (hparse : _parse_models payload = .ok hero_shorts)
    (hkeys : keys = none ∨ keys = some []) :
    heroes ctx listBackend role locale keys
      = (.ok (hero_shorts.map heroNodeOfShort),
          merge_cache_ttl ctx (listBackend drole dloc).ttlHeader) ∧
    _filter_by_keys hero_shorts [] = hero_shorts := by
  refine ⟨?_, rfl⟩
  rcases hkeys with rfl | rfl <;>
    simp [heroes, hrole, hloc, _run_controller, hcall, hparse,
      _filter_by_keys, mapM_make_hero_node]

def wListBackend : Option Role → Locale → ControllerCall (List ShortPayload) :=
  fun _ _ =>
    ⟨.ok [.valid ⟨.ana, "Ana", "pa", .support⟩, .valid ⟨.lucio, "Lucio", "pl", .support⟩],
      some "300"⟩

theorem heroes_no_keys_passthrough_witness :
    heroes freshContext wListBackend none ⟨.code "en-us"⟩ none
      = (.ok ([⟨.ana, "Ana", "pa", .support⟩,
                (⟨.lucio, "Lucio", "pl", .support⟩ : HeroShort)].map heroNodeOfShort),
          merge_cache_ttl freshContext (some "300")) ∧
    _filter_by_keys [⟨.ana, "Ana", "pa", .support⟩, ⟨.lucio, "Lucio", "pl", .support⟩] []
      = [⟨.ana, "Ana", "pa", .support⟩, ⟨.lucio, "Lucio", "pl", .support⟩] :=
  heroes_no_keys_passthrough freshContext wListBackend none ⟨.code "en-us"⟩ none
    none .english_us
    [.valid ⟨.ana, "Ana", "pa", .support⟩, .valid ⟨.lucio, "Lucio", "pl", .support⟩]
    [⟨.ana, "Ana", "pa", .support⟩, ⟨.lucio, "Lucio", "pl", .support⟩]
    rfl rfl rfl rfl (Or.inl rfl)

end OverfastGraphQL
